import Mathlib

/-!
Verification of the linear-elasticity data-generation module
`pymks/fmks/data/elastic_fe.py` against its specification.

The development shallowly embeds the module's data model and operations:

* pure numeric helpers (`_convert_properties`, the material lookup of
  `_get_material`, `stiffness_from_lame`) are translated to exact rational
  arithmetic;
* the structured mesh built by `get_fields` via sfepy's `gen_block_mesh`
  (dimensions `shape * delta_x`, `shape + 1` nodes per axis, centre at the
  origin) is modelled by its per-axis node-coordinate lists;
* the boundary conditions assembled by `get_periodic_bcs`,
  `get_displacement_bcs` and `get_linear_combination_bcs` are modelled as a
  list of constraints on displacement fields.  The sfepy solver enforces
  essential, periodic and shifted-periodic (linear-combination) conditions
  exactly, by eliminating the constrained degrees of freedom, so a returned
  displacement field satisfies every constructed constraint; theorems about
  the solved field's boundary values are stated over all fields satisfying
  the constraint set;
* input validation (`_check`) and the batch pipeline of `solve` are
  translated with `Except`, error values standing for raised Python
  exceptions;
* array bookkeeping (`np.reshape`, `np.squeeze`, stacking) is modelled at
  the level of shapes, which is where the shape claims live.

Numeric placement of regions: `subdomain_func` in the source selects points
within `eps = 1e-3 * dx` of a target plane.  On the structured mesh every
node coordinate is an exact multiple of `delta_x` (shifted by the domain
centre), and `eps < delta_x`, so the tolerance test selects exactly the
nodes lying on the plane; the model uses exact equality.
-/

/-- Spatial points are per-axis rational coordinates (2 or 3 axes). -/
abbrev Point := List ℚ

/-- Coordinate `i` of a point (`coords[:, i]` in the source). -/
def coord (p : Point) (i : Nat) : ℚ := p.getD i 0

/-- Component `c` of a displacement field `u` at point `p` (`u.c` in the
source's boundary-condition dictionaries). -/
def ucomp (u : Point → List ℚ) (p : Point) (c : Nat) : ℚ := (u p).getD c 0

/-- Node coordinates along one axis of the block mesh generated by sfepy's
`gen_block_mesh(dims, shape, centre)`: `nNodes` equally spaced nodes
spanning `[centre - dimLen/2, centre + dimLen/2]`. -/
def axis_nodes (dimLen : ℚ) (nNodes : Nat) (centre : ℚ) : List ℚ :=
  (List.range nNodes).map fun (k : Nat) =>
    centre - dimLen / 2 + (k : ℚ) * (dimLen / ((nNodes : ℚ) - 1))

/-- The mesh built by `get_fields` (elastic_fe.py lines 211-216):
`gen_block_mesh(shape * delta_x, shape + 1, zeros)`.  The structured mesh is
the tensor product of the per-axis node lists returned here. -/
def get_fields_mesh (gs : List Nat) (dx : ℚ) : List (List ℚ) :=
  gs.map fun (n : Nat) => axis_nodes ((n : ℚ) * dx) (n + 1) 0

/-- Minimum of a list of rationals (`np.min` over a nonempty axis). -/
def list_min (l : List ℚ) : ℚ := l.foldl min (l.headD 0)

/-- Maximum of a list of rationals (`np.max` over a nonempty axis). -/
def list_max (l : List ℚ) : ℚ := l.foldl max (l.headD 0)

/-- Lower corner of `domain.get_mesh_bounding_box()`: per-axis minimum of
the node coordinates. -/
def bbox_min (gs : List Nat) (dx : ℚ) : List ℚ :=
  (get_fields_mesh gs dx).map list_min

/-- Upper corner of `domain.get_mesh_bounding_box()`: per-axis maximum of
the node coordinates. -/
def bbox_max (gs : List Nat) (dx : ℚ) : List ℚ :=
  (get_fields_mesh gs dx).map list_max

/-- The per-axis mask of `subdomain_func.flag_it`: true when the point list
is empty, otherwise when coordinate `idx` matches one of the points (the
source tests closeness within `eps`; exact equality on the structured
mesh). -/
def flag_it (points : List ℚ) (p : Point) (idx : Nat) : Bool :=
  points.isEmpty || points.any fun v => decide (coord p idx = v)

/-- Membership test of `subdomain_func(x_points, y_points, z_points, max_x)`
(elastic_fe.py lines 291-333): conjunction of the three axis masks, and,
when `max_x` is given, the additional cut `coords[:, 0] < max_x`. -/
def subdomain_func (x_pts y_pts z_pts : List ℚ) (max_x : Option ℚ) (p : Point) : Bool :=
  (flag_it x_pts p 0 && flag_it y_pts p 1 && flag_it z_pts p 2) &&
    match max_x with
    | some m => decide (coord p 0 < m)
    | none => true

/-- Region built by `get_region_func(max_x, dim_string, domain, (name, v))`:
the facet of points whose coordinate along axis `dim` equals `v`, cut by
`max_x` when present. -/
def get_region_func (max_x : Option ℚ) (dim : Nat) (v : ℚ) (p : Point) : Bool :=
  subdomain_func (if dim = 0 then [v] else []) (if dim = 1 then [v] else [])
    (if dim = 2 then [v] else []) max_x p

/-- Node matching rule of sfepy's `per.match_x_plane` / `match_y_plane` /
`match_z_plane`: two nodes match when all coordinates other than the one of
the paired axis agree (`nd` is the spatial dimension count). -/
def match_plane (dim nd : Nat) (p q : Point) : Bool :=
  (List.range nd).all fun i => i == dim || decide (coord p i = coord q i)

/-- Boundary conditions built per solve, mirroring the three sfepy
constructors used by the source: `EssentialBC(region, vals)`,
`PeriodicBC([plus, minus], comps, match)` and
`LinearCombinationBC(..., "shifted_periodic", shift)`. -/
inductive BC where
  | essential (region : Point → Bool) (vals : List (Nat × ℚ))
  | periodic (plus minus : Point → Bool) (comps : List (Nat × Nat)) (dim : Nat)
  | shifted_periodic (plus minus : Point → Bool) (comps : List (Nat × Nat))
      (dim : Nat) (shift : ℚ)

/-- Meaning of one boundary condition for a displacement field `u`, over the
mesh nodes recognised by `node`.  Essential conditions pin listed components
on a region; periodic conditions equate components at plane-matched node
pairs; shifted-periodic conditions equate them up to the affine offset
(sfepy enforces each of these exactly by eliminating the slave degrees of
freedom). -/
def bc_holds (node : Point → Bool) (nd : Nat) (u : Point → List ℚ) : BC → Prop
  | .essential r vals => ∀ p, node p = true → r p = true →
      ∀ cv ∈ vals, ucomp u p cv.1 = cv.2
  | .periodic rp rm cs d => ∀ p q, node p = true → node q = true →
      rp p = true → rm q = true → match_plane d nd p q = true →
      ∀ c ∈ cs, ucomp u p c.1 = ucomp u q c.2
  | .shifted_periodic rp rm cs d s => ∀ p q, node p = true → node q = true →
      rp p = true → rm q = true → match_plane d nd p q = true →
      ∀ c ∈ cs, ucomp u p c.1 = ucomp u q c.2 + s

/-- One periodic condition from `get_bc` (elastic_fe.py lines 361-392): the
"plus" region is the max-coordinate plane of axis `dim`, the "minus" region
the min-coordinate plane (the source zips `("plus", "minus")` with the
reversed bounding-box column). -/
def get_bc (max_x : Option ℚ) (bmin bmax : List ℚ) (dim : Nat)
    (comps : List (Nat × Nat)) : BC :=
  .periodic (get_region_func max_x dim (bmax.getD dim 0))
    (get_region_func max_x dim (bmin.getD dim 0)) comps dim

/-- `get_periodic_bc_yz(domain, dim)`: ties `u.1` (and `u.2` in 3D) across
the min/max planes of axis `dim`, with no x cut. -/
def get_periodic_bc_yz (nd : Nat) (bmin bmax : List ℚ) (dim : Nat) : BC :=
  get_bc none bmin bmax dim ([(1, 1)] ++ if nd = 3 then [(2, 2)] else [])

/-- `get_periodic_bc_x(domain, dim)`: ties `u.0` across the min/max planes
of axis `dim`, restricted to points with `x` below the bounding-box x
maximum. -/
def get_periodic_bc_x (bmin bmax : List ℚ) (dim : Nat) : BC :=
  get_bc (some (bmax.getD 0 0)) bmin bmax dim [(0, 0)]

/-- `get_periodic_bcs(domain)`: the yz conditions for every axis
`0 ≤ dim < nd` and the x conditions for every axis `1 ≤ dim < nd`. -/
def get_periodic_bcs (nd : Nat) (bmin bmax : List ℚ) : List BC :=
  ((List.range' 0 nd).map (get_periodic_bc_yz nd bmin bmax)) ++
    ((List.range' 1 (nd - 1)).map (get_periodic_bc_x bmin bmax))

/-- Vertex region of `get_shift_or_fixed_bcs`: points with the given x
coordinates, y at the domain's y extremes, and (in 3D) z at the z
extremes. -/
def get_shift_or_fixed_region (bmin bmax : List ℚ) (x_pts : List ℚ) (p : Point) : Bool :=
  subdomain_func x_pts [bmax.getD 1 0, bmin.getD 1 0]
    (if bmin.length = 3 then [bmax.getD 2 0, bmin.getD 2 0] else []) none p

/-- `get_displacement_bcs(domain, macro_strain)`: the "shift" essential
condition displaces `u.0` by `strain * (max_x - min_x)` at the right corner
points, the "fix" condition pins every component to zero at the left corner
points. -/
def get_displacement_bcs (bmin bmax : List ℚ) (strain : ℚ) : List BC :=
  [ .essential (get_shift_or_fixed_region bmin bmax [bmax.getD 0 0])
      [(0, strain * (bmax.getD 0 0 - bmin.getD 0 0))],
    .essential (get_shift_or_fixed_region bmin bmax [bmin.getD 0 0])
      ([(0, 0), (1, 0)] ++ if bmin.length = 3 then [(2, 0)] else []) ]

/-- `get_linear_combination_bcs(domain, macro_strain)`: the max-x plane is
periodic with the min-x plane in `u.0`, shifted by
`strain * (max_x - min_x)`. -/
def get_linear_combination_bcs (bmin bmax : List ℚ) (strain : ℚ) : BC :=
  .shifted_periodic (get_region_func none 0 (bmax.getD 0 0))
    (get_region_func none 0 (bmin.getD 0 0)) [(0, 0)] 0
    (strain * (bmax.getD 0 0 - bmin.getD 0 0))

/-- All boundary conditions assembled by `ElasticFESimulation.solve`
(lines 648-652): periodic, essential, and linear-combination. -/
def all_bcs (gs : List Nat) (dx strain : ℚ) : List BC :=
  get_periodic_bcs gs.length (bbox_min gs dx) (bbox_max gs dx) ++
    get_displacement_bcs (bbox_min gs dx) (bbox_max gs dx) strain ++
    [get_linear_combination_bcs (bbox_min gs dx) (bbox_max gs dx) strain]

/-- Membership of a point in the node set of the structured mesh for voxel
grid `gs` with spacing `dx`. -/
def is_node (gs : List Nat) (dx : ℚ) (p : Point) : Bool :=
  p.length == gs.length &&
    (List.range gs.length).all fun i =>
      ((get_fields_mesh gs dx).getD i []).any fun v => decide (coord p i = v)

/-- A displacement field satisfies the boundary conditions the solver
imposes for grid `gs`, spacing `dx` and the given macroscopic strain. -/
def satisfies_bcs (gs : List Nat) (dx strain : ℚ) (u : Point → List ℚ) : Prop :=
  ∀ bc ∈ all_bcs gs dx strain, bc_holds (is_node gs dx) gs.length u bc

/-- Microstructure input array: integrality of the dtype, the shape, and the
flattened entries. -/
structure NDArray where
  isInt : Bool
  shape : List Nat
  data : List Int
deriving Repr, DecidableEq

/-- `np.max` over the flattened array; raises on a zero-size array. -/
def np_max : List Int → Except String Int
  | [] => .error "zero-size array to reduction operation maximum which has no identity"
  | x :: xs => .ok (xs.foldl max x)

/-- `np.min` over the flattened array; raises on a zero-size array. -/
def np_min : List Int → Except String Int
  | [] => .error "zero-size array to reduction operation minimum which has no identity"
  | x :: xs => .ok (xs.foldl min x)

/-- Input validation `_check(n_phases, n_phases_other, x_data)`
(elastic_fe.py lines 181-198), with raised exceptions as errors.  The
phase-range test evaluates `np.max` (then `np.min`) over the data, which
itself raises on an empty array. -/
def _check (n_phases n_phases_other : Nat) (x : NDArray) : Except String Unit :=
  if n_phases ≠ n_phases_other then
    .error "elastic_modulus and poissons_ratio must be the same length"
  else if !x.isInt then
    .error "X must be an integer array"
  else
    match np_max x.data with
    | .error e => .error e
    | .ok mx =>
      if (n_phases : Int) ≤ mx then .error "X must be between 0 and N."
      else
        match np_min x.data with
        | .error e => .error e
        | .ok mn =>
          if mn < 0 then .error "X must be between 0 and N."
          else if !(3 ≤ x.shape.length && x.shape.length ≤ 4) then
            .error "the shape of x_data is incorrect"
          else .ok ()

/-- Number of independent symmetric-tensor components for spatial dimension
`d` (sfepy: `sym = (dim + 1) * dim // 2`): 3 in 2D, 6 in 3D. -/
def sym (d : Nat) : Nat := (d + 1) * d / 2

/-- `np.squeeze` at shape level: drop all axes of extent one. -/
def np_squeeze (s : List Nat) : List Nat := s.filter fun n => n ≠ 1

/-- Python's `shape[-1:]`: the last axis as a singleton list (empty for a
rank-zero shape). -/
def last_slice (s : List Nat) : List Nat :=
  match s.getLast? with
  | some n => [n]
  | none => []

/-- `np.reshape` at shape level: succeeds exactly when the element counts
agree. -/
def np_reshape (src target : List Nat) : Except String (List Nat) :=
  if src.prod = target.prod then .ok target
  else .error "cannot reshape array"

/-- Shape bookkeeping of `ElasticFESimulation.solve` (lines 670-695) for one
sample on voxel grid `gs`: the nodal displacement (one vector of `dims`
components per node) is reshaped to `(gs + 1 per axis, dims)`; the
element-averaged strain and stress (one `sym dims` vector per element,
shaped `(n_el, 1, sym, 1)` by the evaluator, then squeezed) are reshaped to
`gs ++ shape[-1:]`. -/
def fe_solve_shapes (gs : List Nat) : Except String (List Nat × List Nat × List Nat) :=
  let dims := gs.length
  let u_flat := [(gs.map (· + 1)).prod, dims]
  let strain_flat := np_squeeze [gs.prod, 1, sym dims, 1]
  let stress_flat := np_squeeze [gs.prod, 1, sym dims, 1]
  match np_reshape u_flat (gs.map (· + 1) ++ last_slice u_flat),
      np_reshape strain_flat (gs ++ last_slice strain_flat),
      np_reshape stress_flat (gs ++ last_slice stress_flat) with
  | .error e, _, _ => .error e
  | _, .error e, _ => .error e
  | _, _, .error e => .error e
  | .ok u_shape, .ok strain_shape, .ok stress_shape =>
    .ok (strain_shape, u_shape, stress_shape)

/-- The batch entry point `solve(x_data, elastic_modulus, poissons_ratio,
macro_strain, delta_x)` (lines 84-110) at validation-and-shape level: run
`_check`, then solve each of the `n_samples` samples on the voxel grid
`shape[1:]` and stack the per-sample arrays (`np.array` over a nonempty list
of equally shaped arrays prepends the sample axis; `_check` rules out an
empty sample list before this point). -/
def solve (em nus : List ℚ) (x : NDArray) (_strain _dx : ℚ) :
    Except String (List Nat × List Nat × List Nat) :=
  match _check em.length nus.length x with
  | .error e => .error e
  | .ok _ =>
    match fe_solve_shapes (x.shape.drop 1) with
    | .error e => .error e
    | .ok shapes =>
      .ok (x.shape.headD 0 :: shapes.1, x.shape.headD 0 :: shapes.2.1,
        x.shape.headD 0 :: shapes.2.2)

/-- Labels of independent strain components. -/
inductive StrainComp where
  | exx | eyy | ezz | exy | exz | eyz
deriving Repr, DecidableEq

/-- Ordering of the trailing component axis of the strain (and stress)
arrays, as fixed by sfepy's `ev_cauchy_strain` and documented by the
module's own doctest (elastic_fe.py lines 23-35): `exx, eyy, exy` in 2D. -/
def strain_components : Nat → List StrainComp
  | 2 => [.exx, .eyy, .exy]
  | 3 => [.exx, .eyy, .ezz, .exy, .exz, .eyz]
  | _ => []

/-- The elastic-constant conversions of sfepy's `ElasticConstants` used by
`_convert_properties`: Lamé parameter and shear modulus from Young's
modulus and Poisson ratio. -/
structure ElasticConstants where
  young : ℚ
  poisson : ℚ
deriving Repr, DecidableEq

/-- Lamé's first parameter: `E ν / ((1 + ν)(1 - 2ν))`. -/
def ElasticConstants.lam (c : ElasticConstants) : ℚ :=
  c.young * c.poisson / ((1 + c.poisson) * (1 - 2 * c.poisson))

/-- Shear modulus: `E / (2 (1 + ν))`. -/
def ElasticConstants.mu (c : ElasticConstants) : ℚ :=
  c.young / (2 * (1 + c.poisson))

/-- `_convert_properties(dim, elastic_modulus, poissons_ratio)`
(elastic_fe.py lines 113-178): zip the two phase-property sequences and map
each pair to `(lam, dim / 3 * mu)`. -/
def _convert_properties (dim : Nat) (em nus : List ℚ) : List (ℚ × ℚ) :=
  (em.zip nus).map fun x =>
    ((ElasticConstants.mk x.1 x.2).lam,
      (dim : ℚ) / 3 * (ElasticConstants.mk x.1 x.2).mu)

/-- sfepy's `stiffness_from_lame(dim, lam, mu)`:
`lam * outer(o, o) + mu * diag(o + 1)` with `o = [1]*dim ++ [0]*(sym-dim)`,
as a `sym dim` by `sym dim` matrix. -/
def stiffness_from_lame (dim : Nat) (lam mu : ℚ) : List (List ℚ) :=
  let o : Nat → ℚ := fun i => if i < dim then 1 else 0
  (List.range (sym dim)).map fun i =>
    (List.range (sym dim)).map fun j =>
      lam * o i * o j + mu * (if i = j then o i + 1 else 0)

/-- Output of the material function at a batch of quadrature points: the
Lamé parameter and shear modulus per point (reshaped to `(n, 1, 1)` by the
source, flattened here) and the stiffness matrix per point. -/
structure MaterialOut where
  lam : List ℚ
  mu : List ℚ
  D : List (List (List ℚ))
deriving Repr, DecidableEq

/-- The voxel multi-index a quadrature point falls in:
`floor((coord - bounding_box_min) / delta_x)` per axis. -/
def voxel_index (bmin : List ℚ) (dx : ℚ) (dim : Nat) (p : Point) : List Int :=
  (List.range dim).map fun i => ⌊(coord p i - bmin.getD i 0) / dx⌋

/-- The material evaluation function built by `_get_material`
(elastic_fe.py lines 226-266).  In `"qp"` mode it maps each quadrature
point to its voxel, looks up the `(lam, mu)` pair there (`prop` is the
per-voxel property array) and builds the stiffness matrix; in any other
mode it returns no contribution. -/
def _get_material (prop : List Int → ℚ × ℚ) (bmin : List ℚ) (dim : Nat)
    (dx : ℚ) (coors : List Point) (mode : String) : Option MaterialOut :=
  if mode = "qp" then
    let lm := coors.map fun p => prop (voxel_index bmin dx dim p)
    some ⟨lm.map Prod.fst, lm.map Prod.snd,
      lm.map fun x => stiffness_from_lame dim x.1 x.2⟩
  else none

/-- The forcing of the per-sample map inside `solve` (lines 106-109):
`map_(... solve ...)` over the samples followed by `zip` / `tuple` demands
each sample's result in order; a raised exception propagates out of the
whole pipeline, discarding every result. -/
def force_map {α β : Type} (f : α → Except String β) : List α → Except String (List β)
  | [] => .ok []
  | a :: rest =>
    match f a with
    | .error e => .error e
    | .ok b => (force_map f rest).map (b :: ·)

/-- A per-sample solver that fails on sample 0 (a singular tangent matrix
raised by the direct solver) and succeeds on every other sample. -/
def sample_fail_demo : Nat → Except String Nat :=
  fun k => if k = 0 then .error "singular matrix" else .ok k

/-- Affine displacement field used to witness the boundary-condition
theorems on the 1 by 1 grid with spacing 2 and unit macroscopic strain. -/
def u_aff : Point → List ℚ := fun p => [coord p 0 + 1, 0]

/-- Concrete two-phase property array used to witness the material-function
theorem. -/
def prop0 : List Int → ℚ × ℚ := fun idx => if idx = [0, 0] then (1, 2) else (3, 4)

/-! ### Fold and list helpers -/

theorem foldl_min_eq_of_le {l : List ℚ} :
    ∀ {a : ℚ}, (∀ x ∈ l, a ≤ x) → l.foldl min a = a := by
  induction l with
  | nil => intro a _; rfl
  | cons x xs ih =>
    intro a h
    have hax : a ≤ x := h x (List.mem_cons_self x xs)
    simp only [List.foldl_cons, min_eq_left hax]
    exact ih fun y hy => h y (List.mem_cons_of_mem x hy)

theorem foldl_max_eq_of {l : List ℚ} :
    ∀ {a b : ℚ}, (b = a ∨ b ∈ l) → (∀ x ∈ l, x ≤ b) → a ≤ b →
      l.foldl max a = b := by
  induction l with
  | nil =>
    intro a b hb _ hab
    rcases hb with rfl | h
    · rfl
    · cases h
  | cons x xs ih =>
    intro a b hb hle hab
    have hxb : x ≤ b := hle x (List.mem_cons_self x xs)
    simp only [List.foldl_cons]
    refine ih ?_ (fun y hy => hle y (List.mem_cons_of_mem x hy)) (max_le hab hxb)
    rcases hb with rfl | hx
    · exact Or.inl (max_eq_left hxb).symm
    · rcases List.mem_cons.mp hx with rfl | hxs
      · exact Or.inl (max_eq_right hab).symm
      · exact Or.inr hxs

theorem le_foldl_max (l : List Int) (b : Int) :
    b ≤ l.foldl max b ∧ ∀ x ∈ l, x ≤ l.foldl max b := by
  induction l generalizing b with
  | nil => simp
  | cons y ys ih =>
    refine ⟨le_trans (le_max_left b y) (ih (max b y)).1, ?_⟩
    intro x hx
    rcases List.mem_cons.mp hx with rfl | hx'
    · exact le_trans (le_max_right b x) (ih (max b x)).1
    · exact (ih (max b y)).2 x hx'

theorem foldl_min_le (l : List Int) (b : Int) :
    l.foldl min b ≤ b ∧ ∀ x ∈ l, l.foldl min b ≤ x := by
  induction l generalizing b with
  | nil => simp
  | cons y ys ih =>
    refine ⟨le_trans (ih (min b y)).1 (min_le_left b y), ?_⟩
    intro x hx
    rcases List.mem_cons.mp hx with rfl | hx'
    · exact le_trans (ih (min b x)).1 (min_le_right b x)
    · exact (ih (min b y)).2 x hx'

theorem np_max_spec {l : List Int} (h : l ≠ []) :
    ∃ m, np_max l = .ok m ∧ ∀ x ∈ l, x ≤ m := by
  cases l with
  | nil => exact absurd rfl h
  | cons y ys =>
    refine ⟨ys.foldl max y, rfl, ?_⟩
    intro x hx
    rcases List.mem_cons.mp hx with rfl | hx'
    · exact (le_foldl_max ys x).1
    · exact (le_foldl_max ys y).2 x hx'

theorem np_min_spec {l : List Int} (h : l ≠ []) :
    ∃ m, np_min l = .ok m ∧ ∀ x ∈ l, m ≤ x := by
  cases l with
  | nil => exact absurd rfl h
  | cons y ys =>
    refine ⟨ys.foldl min y, rfl, ?_⟩
    intro x hx
    rcases List.mem_cons.mp hx with rfl | hx'
    · exact (foldl_min_le ys x).1
    · exact (foldl_min_le ys y).2 x hx'

/-! ### Mesh node lattice -/

theorem mem_axis_nodes {L c x : ℚ} {n : Nat} :
    x ∈ axis_nodes L n c ↔
      ∃ k, k < n ∧ c - L / 2 + (k : ℚ) * (L / ((n : ℚ) - 1)) = x := by
  rw [axis_nodes]
  constructor
  · intro h
    rcases List.mem_map.mp h with ⟨k, hk, hfk⟩
    exact ⟨k, List.mem_range.mp hk, hfk⟩
  · rintro ⟨k, hk, hfk⟩
    exact List.mem_map.mpr ⟨k, List.mem_range.mpr hk, hfk⟩

theorem axis_nodes_length (L c : ℚ) (n : Nat) : (axis_nodes L n c).length = n := by
  rw [axis_nodes, List.length_map, List.length_range]

theorem axis_nodes_headD {L c : ℚ} {n : Nat} :
    (axis_nodes L (n + 1) c).headD 0 = c - L / 2 := by
  rw [axis_nodes, List.range_succ_eq_map]
  simp

theorem axis_node_bounds {m : Nat} {dx x : ℚ} (hdx : 0 ≤ dx)
    (hx : x ∈ axis_nodes ((m : ℚ) * dx) (m + 1) 0) :
    -((m : ℚ) * dx) / 2 ≤ x ∧ x ≤ ((m : ℚ) * dx) / 2 := by
  rcases mem_axis_nodes.mp hx with ⟨k, hk, rfl⟩
  rcases Nat.eq_zero_or_pos m with hm | hm
  · subst hm
    have : k = 0 := Nat.lt_one_iff.mp hk
    subst this
    norm_num
  · have hmQ : ((m : ℚ)) ≠ 0 := by exact_mod_cast hm.ne'
    have hdiv : ((m : ℚ) * dx) / (((m + 1 : Nat) : ℚ) - 1) = dx := by
      push_cast
      rw [add_sub_cancel_right, mul_comm, mul_div_assoc, div_self hmQ, mul_one]
    rw [hdiv]
    have hk' : (k : ℚ) ≤ (m : ℚ) := by exact_mod_cast Nat.lt_succ_iff.mp hk
    have h0 : (0 : ℚ) ≤ (k : ℚ) * dx := mul_nonneg (by positivity) hdx
    have h1 : (k : ℚ) * dx ≤ (m : ℚ) * dx := mul_le_mul_of_nonneg_right hk' hdx
    constructor <;> linarith

theorem axis_min_mem {m : Nat} {dx : ℚ} :
    -((m : ℚ) * dx) / 2 ∈ axis_nodes ((m : ℚ) * dx) (m + 1) 0 := by
  refine mem_axis_nodes.mpr ⟨0, Nat.succ_pos m, ?_⟩
  push_cast
  ring

theorem axis_max_mem {m : Nat} {dx : ℚ} :
    ((m : ℚ) * dx) / 2 ∈ axis_nodes ((m : ℚ) * dx) (m + 1) 0 := by
  refine mem_axis_nodes.mpr ⟨m, Nat.lt_succ_self m, ?_⟩
  rcases Nat.eq_zero_or_pos m with hm | hm
  · subst hm; norm_num
  · have hmQ : ((m : ℚ)) ≠ 0 := by exact_mod_cast hm.ne'
    have hdiv : ((m : ℚ) * dx) / (((m + 1 : Nat) : ℚ) - 1) = dx := by
      push_cast
      rw [add_sub_cancel_right, mul_comm, mul_div_assoc, div_self hmQ, mul_one]
    rw [hdiv]
    ring

theorem list_min_axis (m : Nat) (dx : ℚ) (hdx : 0 ≤ dx) :
    list_min (axis_nodes ((m : ℚ) * dx) (m + 1) 0) = -((m : ℚ) * dx) / 2 := by
  rw [list_min, axis_nodes_headD, zero_sub, neg_div]
  exact foldl_min_eq_of_le fun x hx => by
    have := (axis_node_bounds hdx hx).1
    rw [neg_div] at this
    exact this

theorem list_max_axis (m : Nat) (dx : ℚ) (hdx : 0 ≤ dx) :
    list_max (axis_nodes ((m : ℚ) * dx) (m + 1) 0) = ((m : ℚ) * dx) / 2 := by
  have hL : (0 : ℚ) ≤ (m : ℚ) * dx := mul_nonneg (by positivity) hdx
  rw [list_max, axis_nodes_headD, zero_sub]
  refine foldl_max_eq_of (Or.inr axis_max_mem)
    (fun x hx => (axis_node_bounds hdx hx).2) (by rw [← neg_div]; linarith)

theorem get_fields_mesh_length (gs : List Nat) (dx : ℚ) :
    (get_fields_mesh gs dx).length = gs.length := by
  simp [get_fields_mesh]

theorem get_fields_mesh_getD (gs : List Nat) (dx : ℚ) {i : Nat} (hi : i < gs.length) :
    (get_fields_mesh gs dx).getD i [] =
      axis_nodes ((gs.getD i 0 : ℚ) * dx) (gs.getD i 0 + 1) 0 := by
  rw [get_fields_mesh, List.getD_eq_getElem?_getD, List.getElem?_map,
    List.getElem?_eq_getElem hi, List.getD_eq_getElem?_getD,
    List.getElem?_eq_getElem hi]
  rfl

theorem bbox_min_getD (gs : List Nat) (dx : ℚ) (hdx : 0 ≤ dx) {i : Nat}
    (hi : i < gs.length) :
    (bbox_min gs dx).getD i 0 = -((gs.getD i 0 : ℚ) * dx) / 2 := by
  have hlen : i < (get_fields_mesh gs dx).length := by
    rw [get_fields_mesh_length]; exact hi
  rw [bbox_min, List.getD_eq_getElem?_getD, List.getElem?_map,
    List.getElem?_eq_getElem hlen]
  have : (get_fields_mesh gs dx)[i] = (get_fields_mesh gs dx).getD i [] := by
    rw [List.getD_eq_getElem?_getD, List.getElem?_eq_getElem hlen]
    rfl
  simp only [Option.map_some', Option.getD_some, this,
    get_fields_mesh_getD gs dx hi, list_min_axis _ _ hdx]

theorem bbox_max_getD (gs : List Nat) (dx : ℚ) (hdx : 0 ≤ dx) {i : Nat}
    (hi : i < gs.length) :
    (bbox_max gs dx).getD i 0 = ((gs.getD i 0 : ℚ) * dx) / 2 := by
  have hlen : i < (get_fields_mesh gs dx).length := by
    rw [get_fields_mesh_length]; exact hi
  rw [bbox_max, List.getD_eq_getElem?_getD, List.getElem?_map,
    List.getElem?_eq_getElem hlen]
  have : (get_fields_mesh gs dx)[i] = (get_fields_mesh gs dx).getD i [] := by
    rw [List.getD_eq_getElem?_getD, List.getElem?_eq_getElem hlen]
    rfl
  simp only [Option.map_some', Option.getD_some, this,
    get_fields_mesh_getD gs dx hi, list_max_axis _ _ hdx]


/-! ### Coordinates, regions and node matching -/

theorem coord_set_self {p : Point} {i : Nat} {v : ℚ} (h : i < p.length) :
    coord (p.set i v) i = v := by
  simp [coord, List.getD_eq_getElem?_getD, List.getElem?_set_self h]

theorem coord_set_ne {p : Point} {i j : Nat} {v : ℚ} (h : i ≠ j) :
    coord (p.set i v) j = coord p j := by
  simp [coord, List.getD_eq_getElem?_getD, List.getElem?_set_ne h]

theorem flag_it_nil (p : Point) (i : Nat) : flag_it [] p i = true := by
  simp [flag_it]

theorem flag_it_singleton {v : ℚ} {p : Point} {i : Nat} :
    flag_it [v] p i = true ↔ coord p i = v := by
  simp [flag_it]

theorem flag_it_pair {a b : ℚ} {p : Point} {i : Nat} :
    flag_it [a, b] p i = true ↔ coord p i = a ∨ coord p i = b := by
  simp [flag_it]

theorem get_region_func_none_iff {d : Nat} (hd : d < 3) {v : ℚ} {p : Point} :
    get_region_func none d v p = true ↔ coord p d = v := by
  interval_cases d <;>
    simp [get_region_func, subdomain_func, flag_it]

theorem get_region_func_some_iff {d : Nat} (hd : d < 3) {v m : ℚ} {p : Point} :
    get_region_func (some m) d v p = true ↔ coord p d = v ∧ coord p 0 < m := by
  interval_cases d <;>
    simp [get_region_func, subdomain_func, flag_it, and_comm]

theorem match_plane_set {p : Point} {d nd : Nat} {v : ℚ} :
    match_plane d nd p (p.set d v) = true := by
  simp only [match_plane, List.all_eq_true, List.mem_range]
  intro i hi
  by_cases hid : i = d
  · subst hid
    simp
  · simp [hid, coord_set_ne (fun h => hid h.symm)]

theorem match_plane_eq {d nd : Nat} {p q : Point} (h : match_plane d nd p q = true)
    {i : Nat} (hi : i < nd) (hid : i ≠ d) : coord p i = coord q i := by
  simp only [match_plane, List.all_eq_true, List.mem_range, Bool.or_eq_true,
    beq_iff_eq, decide_eq_true_eq] at h
  rcases h i hi with hd | he
  · exact absurd hd hid
  · exact he

theorem is_node_iff {gs : List Nat} {dx : ℚ} {p : Point} :
    is_node gs dx p = true ↔
      p.length = gs.length ∧
        ∀ i < gs.length, coord p i ∈ (get_fields_mesh gs dx).getD i [] := by
  simp [is_node, List.all_eq_true, List.any_eq_true, List.mem_range]

theorem is_node_set {gs : List Nat} {dx : ℚ} {p : Point} {i : Nat} {v : ℚ}
    (hp : is_node gs dx p = true) (hi : i < gs.length)
    (hv : v ∈ (get_fields_mesh gs dx).getD i []) :
    is_node gs dx (p.set i v) = true := by
  rcases is_node_iff.mp hp with ⟨hlen, hmem⟩
  refine is_node_iff.mpr ⟨by simpa using hlen, ?_⟩
  intro j hj
  by_cases hij : i = j
  · subst hij
    rw [coord_set_self (hlen ▸ hi)]
    exact hv
  · rw [coord_set_ne hij]
    exact hmem j hj

theorem node_coord_mem {gs : List Nat} {dx : ℚ} {p : Point}
    (hp : is_node gs dx p = true) {i : Nat} (hi : i < gs.length) :
    coord p i ∈ axis_nodes ((gs.getD i 0 : ℚ) * dx) (gs.getD i 0 + 1) 0 := by
  have := (is_node_iff.mp hp).2 i hi
  rwa [get_fields_mesh_getD gs dx hi] at this

theorem node_coord_le_max {gs : List Nat} {dx : ℚ} (hdx : 0 ≤ dx) {p : Point}
    (hp : is_node gs dx p = true) {i : Nat} (hi : i < gs.length) :
    coord p i ≤ (bbox_max gs dx).getD i 0 := by
  rw [bbox_max_getD gs dx hdx hi]
  exact (axis_node_bounds hdx (node_coord_mem hp hi)).2

theorem min_node_mem {gs : List Nat} {dx : ℚ} (hdx : 0 ≤ dx) {i : Nat}
    (hi : i < gs.length) :
    (bbox_min gs dx).getD i 0 ∈ (get_fields_mesh gs dx).getD i [] := by
  rw [get_fields_mesh_getD gs dx hi, bbox_min_getD gs dx hdx hi]
  exact axis_min_mem

/-! ### Membership of the individual boundary conditions -/

theorem lcbc_mem_all (gs : List Nat) (dx s : ℚ) :
    get_linear_combination_bcs (bbox_min gs dx) (bbox_max gs dx) s ∈ all_bcs gs dx s := by
  simp [all_bcs]

theorem shift_mem_all (gs : List Nat) (dx s : ℚ) :
    BC.essential (get_shift_or_fixed_region (bbox_min gs dx) (bbox_max gs dx)
        [(bbox_max gs dx).getD 0 0])
      [(0, s * ((bbox_max gs dx).getD 0 0 - (bbox_min gs dx).getD 0 0))] ∈
      all_bcs gs dx s := by
  simp [all_bcs, get_displacement_bcs]

theorem yz_mem_all (gs : List Nat) (dx s : ℚ) {d : Nat} (hd : d < gs.length) :
    get_periodic_bc_yz gs.length (bbox_min gs dx) (bbox_max gs dx) d ∈
      all_bcs gs dx s := by
  simp only [all_bcs, get_periodic_bcs, List.mem_append, List.mem_map]
  exact Or.inl (Or.inl (Or.inl ⟨d, by simpa using hd, rfl⟩))

theorem x_mem_all (gs : List Nat) (dx s : ℚ) {d : Nat} (h1 : 1 ≤ d)
    (hd : d < gs.length) :
    get_periodic_bc_x (bbox_min gs dx) (bbox_max gs dx) d ∈ all_bcs gs dx s := by
  simp only [all_bcs, get_periodic_bcs, List.mem_append, List.mem_map]
  refine Or.inl (Or.inl (Or.inr ⟨d, ?_, rfl⟩))
  have : d < 1 + (gs.length - 1) := by omega
  simpa [List.mem_range'_1] using ⟨h1, this⟩

/-! ### Validation behaviour of solve -/

theorem solve_error_of_check {em nus : List ℚ} {x : NDArray} {ms dx : ℚ}
    {msg : String} (h : _check em.length nus.length x = .error msg) :
    solve em nus x ms dx = .error msg := by
  rw [solve, h]

theorem check_ok_props {n n' : Nat} {x : NDArray}
    (h : _check n n' x = .ok ()) :
    n = n' ∧ x.isInt = true ∧ x.data ≠ [] ∧
      (∀ v ∈ x.data, 0 ≤ v ∧ v < (n : Int)) ∧
      3 ≤ x.shape.length ∧ x.shape.length ≤ 4 := by
  rw [_check] at h
  by_cases h1 : n ≠ n'
  · rw [if_pos h1] at h; cases h
  rw [if_neg h1] at h
  push_neg at h1
  by_cases h2 : (!x.isInt) = true
  · rw [if_pos h2] at h; cases h
  rw [if_neg h2] at h
  have h2' : x.isInt = true := by simpa using h2
  split at h
  next e hmx => cases h
  next mx hmx =>
    have hne : x.data ≠ [] := by
      intro hnil
      rw [hnil] at hmx
      cases hmx
    by_cases h3 : (n : Int) ≤ mx
    · rw [if_pos h3] at h; cases h
    rw [if_neg h3] at h
    push_neg at h3
    split at h
    next e hmn => cases h
    next mn hmn =>
      by_cases h4 : mn < 0
      · rw [if_pos h4] at h; cases h
      rw [if_neg h4] at h
      push_neg at h4
      by_cases h5 : (!(decide (3 ≤ x.shape.length) && decide (x.shape.length ≤ 4))) = true
      · rw [if_pos h5] at h; cases h
      have h5' : 3 ≤ x.shape.length ∧ x.shape.length ≤ 4 := by
        simpa [Bool.not_eq_true, Bool.and_eq_true] using h5
      rcases np_max_spec hne with ⟨mx', hmx', hmxle⟩
      rcases np_min_spec hne with ⟨mn', hmn', hmnle⟩
      rw [hmx] at hmx'
      rw [hmn] at hmn'
      cases hmx'
      cases hmn'
      refine ⟨h1, h2', hne, ?_, h5'.1, h5'.2⟩
      intro v hv
      exact ⟨le_trans h4 (hmnle v hv), lt_of_le_of_lt (hmxle v hv) h3⟩

theorem check_error_or_ok (n n' : Nat) (x : NDArray) :
    _check n n' x = .ok () ∨ ∃ msg, _check n n' x = .error msg := by
  cases h : _check n n' x with
  | ok u => cases u; exact Or.inl rfl
  | error e => exact Or.inr ⟨e, rfl⟩

/-- Claim C2: a phase-count mismatch, a non-integral dtype, an entry below 0
or at least `n_phases`, or an array rank other than 3 or 4 makes `solve`
raise a validation error; the error short-circuits the pipeline before the
property conversion and per-sample FE solves, so no partial work happens. -/
theorem solve_validation_fail_fast (em nus : List ℚ) (x : NDArray) (ms dx : ℚ)
    (h : em.length ≠ nus.length ∨ x.isInt = false ∨
      (∃ v ∈ x.data, v < 0 ∨ (em.length : Int) ≤ v) ∨
      ¬(3 ≤ x.shape.length ∧ x.shape.length ≤ 4)) :
    ∃ msg, solve em nus x ms dx = .error msg := by
  rcases check_error_or_ok em.length nus.length x with hok | ⟨msg, herr⟩
  · exfalso
    rcases check_ok_props hok with ⟨h1, h2, _, h4, h5, h6⟩
    rcases h with hc | hc | ⟨v, hv, hc⟩ | hc
    · exact hc h1
    · rw [h2] at hc; cases hc
    · rcases h4 v hv with ⟨hge, hlt⟩
      rcases hc with hneg | hbig
      · exact absurd hge (not_le.mpr hneg)
      · exact absurd hbig (not_le.mpr hlt)
    · exact hc ⟨h5, h6⟩
  · exact ⟨msg, solve_error_of_check herr⟩

/-- Witness for C2: mismatched property lengths make `solve` error. -/
theorem solve_validation_fail_fast_witness :
    ∃ msg, solve [1] [1, 2] ⟨true, [1, 1, 1], [0]⟩ 1 1 = .error msg :=
  solve_validation_fail_fast [1] [1, 2] ⟨true, [1, 1, 1], [0]⟩ 1 1
    (Or.inl (by decide))

/-- Claim C10: a batch with zero samples (leading extent 0, hence empty
data) passes the length and dtype checks, but the `np.max` reduction inside
the phase-range validation raises on the empty array, so `solve` errors
instead of returning empty strain, displacement and stress arrays. -/
theorem empty_batch_validation_error (em nus : List ℚ) (x : NDArray)
    (ms dx : ℚ) (gs : List Nat) (hlen : em.length = nus.length)
    (hint : x.isInt = true) (hshape : x.shape = 0 :: gs)
    (hwf : x.data.length = x.shape.prod) :
    solve em nus x ms dx =
      .error "zero-size array to reduction operation maximum which has no identity" := by
  have hdata : x.data = [] := by
    rw [hshape] at hwf
    simp only [List.prod_cons, Nat.zero_mul] at hwf
    exact List.eq_nil_of_length_eq_zero hwf
  apply solve_error_of_check
  rw [_check, hlen, hdata]
  simp [hint, np_max]

/-- Witness for C10: the concrete empty batch of shape `(0, 3, 3)`. -/
theorem empty_batch_validation_error_witness :
    solve [1] [2] ⟨true, [0, 3, 3], []⟩ 1 1 =
      .error "zero-size array to reduction operation maximum which has no identity" :=
  empty_batch_validation_error [1] [2] ⟨true, [0, 3, 3], []⟩ 1 1 [3, 3]
    (by decide) (by decide) (by decide) (by decide)

/-! ### Property conversion (claim C3) -/

/-- Claim C3: `_convert_properties` deterministically returns one row per
phase (an `(n_phases, 2)` table), row `i` being the pair
`(E_i nu_i / ((1+nu_i)(1-2nu_i)), dim/3 * E_i / (2(1+nu_i)))`; in
particular for `dim = 2`, moduli `(1, 2)` and Poisson ratios `(1, 1)` the
table is exactly `[(-1/2, 1/6), (-1, 1/3)]`. -/
theorem convert_properties_spec (dim : Nat) (em nus : List ℚ) (i : Nat)
    (hlen : em.length = nus.length) (hi : i < em.length) :
    (_convert_properties dim em nus).length = em.length ∧
    (_convert_properties dim em nus).getD i (0, 0) =
      (em.getD i 0 * nus.getD i 0 /
          ((1 + nus.getD i 0) * (1 - 2 * nus.getD i 0)),
        (dim : ℚ) / 3 * (em.getD i 0 / (2 * (1 + nus.getD i 0)))) ∧
    _convert_properties 2 [1, 2] [1, 1] = [(-(1 : ℚ)/2, 1/6), (-1, 1/3)] := by
  have hziplen : (em.zip nus).length = em.length := by
    rw [List.length_zip, hlen, Nat.min_self]
  have hzip : i < (em.zip nus).length := by rw [hziplen]; exact hi
  have hinus : i < nus.length := hlen ▸ hi
  refine ⟨by rw [_convert_properties, List.length_map, hziplen], ?_, ?_⟩
  · rw [_convert_properties, List.getD_eq_getElem _ _ (by rw [List.length_map]; exact hzip),
      List.getElem_map, List.getElem_zip, List.getD_eq_getElem _ _ hi,
      List.getD_eq_getElem _ _ hinus]
    rfl
  · norm_num [_convert_properties, ElasticConstants.lam, ElasticConstants.mu]

/-- Witness for C3 at the concrete golden input. -/
theorem convert_properties_spec_witness :
    _convert_properties 2 [1, 2] [1, 1] = [(-(1 : ℚ)/2, 1/6), (-1, 1/3)] :=
  (convert_properties_spec 2 [1, 2] [1, 1] 0 rfl (by decide)).2.2

/-! ### Mesh structure (claim C7) -/

/-- Claim C7 counterexample: for the 3 by 3 voxel grid with spacing 1 the
mesh bounding-box minimum is `(-3/2, -3/2)`, not `(0, 0)`:
`gen_block_mesh` is called with the block centre at the origin, so the
domain does not start at coordinate 0. -/
theorem mesh_min_not_zero :
    bbox_min [3, 3] 1 = [-(3 : ℚ)/2, -(3 : ℚ)/2] ∧ bbox_min [3, 3] 1 ≠ [0, 0] := by
  have h : bbox_min [3, 3] 1 = [-(3 : ℚ)/2, -(3 : ℚ)/2] := by
    norm_num [bbox_min, get_fields_mesh, axis_nodes, list_min, List.range_succ,
      min_def]
  refine ⟨h, ?_⟩
  rw [h]
  intro hc
  rw [List.cons.injEq] at hc
  norm_num at hc

/-- Claim C7 (amended): the mesh for voxel grid `gs` and spacing `dx` has
`gs i + 1` nodes along axis `i` (hence one element per voxel and node grid
`gs + 1`), and the domain spans `[-(gs i * dx)/2, (gs i * dx)/2]` along
axis `i` — length `gs i * dx` per axis, but centred at the origin rather
than starting at 0. -/
theorem mesh_structure_law (gs : List Nat) (dx : ℚ) (hdx : 0 ≤ dx) :
    (get_fields_mesh gs dx).map List.length = gs.map (· + 1) ∧
    bbox_min gs dx = gs.map (fun (m : Nat) => -((m : ℚ) * dx) / 2) ∧
    bbox_max gs dx = gs.map (fun (m : Nat) => ((m : ℚ) * dx) / 2) ∧
    ∀ i, i < gs.length →
      (bbox_max gs dx).getD i 0 - (bbox_min gs dx).getD i 0 =
        (gs.getD i 0 : ℚ) * dx := by
  refine ⟨?_, ?_, ?_, ?_⟩
  · rw [get_fields_mesh, List.map_map]
    exact List.map_congr_left fun m _ => by
      simp [Function.comp, axis_nodes_length]
  · rw [bbox_min, get_fields_mesh, List.map_map]
    exact List.map_congr_left fun m _ => by
      simpa [Function.comp] using list_min_axis m dx hdx
  · rw [bbox_max, get_fields_mesh, List.map_map]
    exact List.map_congr_left fun m _ => by
      simpa [Function.comp] using list_max_axis m dx hdx
  · intro i hi
    rw [bbox_max_getD gs dx hdx hi, bbox_min_getD gs dx hdx hi]
    ring

/-- Witness for the amended C7 on the 2 by 3 grid with spacing 1/2. -/
theorem mesh_structure_law_witness :
    bbox_min [2, 3] (1/2) = [-(1 : ℚ)/2, -(3 : ℚ)/4] := by
  have h := (mesh_structure_law [2, 3] (1/2) (by norm_num)).2.1
  rw [h]
  norm_num

/-! ### Material evaluation (claim C8) -/

/-- Claim C8: in "qp" mode the material function returns, for each
quadrature point, the `(lam, mu)` property pair of the voxel with index
`floor((coord - domain_min) / delta_x)` along each axis, and the stiffness
matrix `stiffness_from_lame` of that pair; called in any other mode it
returns no contribution. -/
theorem material_qp_mode_law (prop : List Int → ℚ × ℚ) (bmin : List ℚ)
    (dim : Nat) (dx : ℚ) (coors : List Point) :
    (∀ mode, mode ≠ "qp" → _get_material prop bmin dim dx coors mode = none) ∧
    ∃ out, _get_material prop bmin dim dx coors "qp" = some out ∧
      out.lam.length = coors.length ∧ out.mu.length = coors.length ∧
      out.D.length = coors.length ∧
      ∀ k, k < coors.length →
        (out.lam.getD k 0, out.mu.getD k 0) =
          prop (voxel_index bmin dx dim (coors.getD k [])) ∧
        out.D.getD k [] =
          stiffness_from_lame dim
            (prop (voxel_index bmin dx dim (coors.getD k []))).1
            (prop (voxel_index bmin dx dim (coors.getD k []))).2 := by
  constructor
  · intro mode hm
    rw [_get_material, if_neg hm]
  · refine ⟨_, by rw [_get_material, if_pos rfl], ?_, ?_, ?_, ?_⟩
    · simp
    · simp
    · simp
    · intro k hk
      have hmap : k < (coors.map fun p =>
          prop (voxel_index bmin dx dim p)).length := by
        rw [List.length_map]; exact hk
      rw [List.getD_eq_getElem _ _ hk]
      refine ⟨?_, ?_⟩
      · have h1 : ((coors.map fun p => prop (voxel_index bmin dx dim p)).map
            Prod.fst).getD k 0 = (prop (voxel_index bmin dx dim coors[k])).1 := by
          rw [List.getD_eq_getElem _ _ (by rw [List.length_map]; exact hmap),
            List.getElem_map, List.getElem_map]
        have h2 : ((coors.map fun p => prop (voxel_index bmin dx dim p)).map
            Prod.snd).getD k 0 = (prop (voxel_index bmin dx dim coors[k])).2 := by
          rw [List.getD_eq_getElem _ _ (by rw [List.length_map]; exact hmap),
            List.getElem_map, List.getElem_map]
        rw [h1, h2]
      · rw [List.getD_eq_getElem _ _ (by rw [List.length_map]; exact hmap),
          List.getElem_map, List.getElem_map]

/-- Witness for C8: a mode other than "qp" yields no contribution. -/
theorem material_qp_mode_law_witness :
    _get_material prop0 [-1, -1] 2 1 [[(1 : ℚ)/2, -(1 : ℚ)/2]] "special" = none :=
  (material_qp_mode_law prop0 [-1, -1] 2 1 [[(1 : ℚ)/2, -(1 : ℚ)/2]]).1
    "special" (by decide)

/-! ### Output shapes (claim C1) -/

theorem fe_solve_shapes_eval (gs : List Nat) (hS : sym gs.length ≠ 1) :
    fe_solve_shapes gs =
      .ok (gs ++ [sym gs.length], gs.map (· + 1) ++ [gs.length],
        gs ++ [sym gs.length]) := by
  have hu : np_reshape [(gs.map (· + 1)).prod, gs.length]
      (gs.map (· + 1) ++ last_slice [(gs.map (· + 1)).prod, gs.length]) =
      .ok (gs.map (· + 1) ++ [gs.length]) := by
    have hls : last_slice [(gs.map (· + 1)).prod, gs.length] = [gs.length] := rfl
    rw [hls, np_reshape, if_pos]
    simp [List.prod_append]
  have hstrain : np_reshape (np_squeeze [gs.prod, 1, sym gs.length, 1])
      (gs ++ last_slice (np_squeeze [gs.prod, 1, sym gs.length, 1])) =
      .ok (gs ++ [sym gs.length]) := by
    by_cases hP : gs.prod = 1
    · have hsq : np_squeeze [gs.prod, 1, sym gs.length, 1] = [sym gs.length] := by
        simp [np_squeeze, hP, hS]
      rw [hsq]
      have hls : last_slice [sym gs.length] = [sym gs.length] := rfl
      rw [hls, np_reshape, if_pos]
      simp [List.prod_append, hP]
    · have hsq : np_squeeze [gs.prod, 1, sym gs.length, 1] =
          [gs.prod, sym gs.length] := by
        simp [np_squeeze, hP, hS]
      rw [hsq]
      have hls : last_slice [gs.prod, sym gs.length] = [sym gs.length] := rfl
      rw [hls, np_reshape, if_pos]
      simp [List.prod_append]
  rw [fe_solve_shapes]
  simp only [hu, hstrain]

/-- Claim C1: for a validated call on a batch of `n` samples over voxel grid
`gs` (2D or 3D), `solve` returns strain and stress arrays of shape
`(n, gs..., sym)` with `sym = 3` on a 2D grid and `6` on a 3D grid, and a
displacement array of shape `(n, gs + 1 per axis..., n_dims)`; the 2D
component axis is ordered `exx, eyy, exy`. -/
theorem solve_output_shapes (em nus : List ℚ) (x : NDArray) (ms dx : ℚ)
    (n : Nat) (gs : List Nat) (hx : x.shape = n :: gs)
    (hd : gs.length = 2 ∨ gs.length = 3)
    (hok : _check em.length nus.length x = .ok ()) :
    solve em nus x ms dx =
      .ok (n :: (gs ++ [sym gs.length]), n :: (gs.map (· + 1) ++ [gs.length]),
        n :: (gs ++ [sym gs.length])) ∧
    (gs.length = 2 → sym gs.length = 3) ∧
    (gs.length = 3 → sym gs.length = 6) ∧
    strain_components 2 = [.exx, .eyy, .exy] := by
  have hS : sym gs.length ≠ 1 := by
    rcases hd with h | h <;> rw [h] <;> decide
  have hfe := fe_solve_shapes_eval gs hS
  refine ⟨?_, ?_, ?_, rfl⟩
  · rw [solve, hok, hx]
    simp only [List.drop_succ_cons, List.drop_zero, List.headD_cons, hfe]
  · intro h; rw [h]; decide
  · intro h; rw [h]; decide

/-- Witness for C1: one 2 by 2 sample, strain and stress `(1, 2, 2, 3)`,
displacement `(1, 3, 3, 2)`. -/
theorem solve_output_shapes_witness :
    solve [1] [1] ⟨true, [1, 2, 2], [0, 0, 0, 0]⟩ 1 1 =
      .ok ([1, 2, 2, 3], [1, 3, 3, 2], [1, 2, 2, 3]) := by
  have h := (solve_output_shapes [1] [1] ⟨true, [1, 2, 2], [0, 0, 0, 0]⟩ 1 1 1
    [2, 2] rfl (Or.inl rfl) (by rfl)).1
  simpa using h

/-! ### Batch failure propagation (claim C9) -/

/-- Claim C9 counterexample: with a per-sample solver raising on sample 0
and succeeding on sample 1, the batch pipeline returns the raised error and
no `.ok` result: the sibling sample's result is not obtainable from the
call, contradicting the claimed per-sample scoping. -/
theorem batch_abort_counterexample :
    sample_fail_demo 1 = .ok 1 ∧
    force_map sample_fail_demo [0, 1] = .error "singular matrix" ∧
    ∀ r : List Nat, force_map sample_fail_demo [0, 1] ≠ .ok r := by
  refine ⟨rfl, rfl, fun r h => ?_⟩
  rw [(rfl : force_map sample_fail_demo [0, 1] = .error "singular matrix")] at h
  cases h

/-- Claim C9 (amended): a raised per-sample exception propagates out of the
batch map of `solve`: when sample `a` fails with error `e` and the samples
before it succeed, the whole batch call returns `.error e`, so the caller
obtains no results for any sample, siblings included. -/
theorem batch_failure_propagates {α β : Type} (f : α → Except String β)
    (pre post : List α) (a : α) (e : String) (hfail : f a = .error e)
    (hpre : ∀ b ∈ pre, ∃ r, f b = .ok r) :
    force_map f (pre ++ a :: post) = .error e := by
  induction pre with
  | nil =>
    simp only [List.nil_append, force_map, hfail]
  | cons b bs ih =>
    rcases hpre b (List.mem_cons_self b bs) with ⟨r, hr⟩
    have ih' := ih fun c hc => hpre c (List.mem_cons_of_mem b hc)
    have hstep : force_map f ((b :: bs) ++ a :: post) =
        (force_map f (bs ++ a :: post)).map (r :: ·) := by
      show (match f b with
        | Except.error e => (Except.error e : Except String (List β))
        | Except.ok v => (force_map f (bs ++ a :: post)).map (v :: ·)) = _
      rw [hr]
    rw [hstep, ih']
    rfl

/-- Witness for the amended C9: sample 1 succeeds, sample 0 fails, and the
three-sample batch returns the error. -/
theorem batch_failure_propagates_witness :
    force_map sample_fail_demo [1, 0, 2] = .error "singular matrix" := by
  have hpre : ∀ b ∈ [1], ∃ r, sample_fail_demo b = .ok r := by
    intro b hb
    rw [List.mem_singleton] at hb
    subst hb
    exact ⟨1, rfl⟩
  simpa using batch_failure_propagates sample_fail_demo [1] [2] 0
    "singular matrix" rfl hpre

/-! ### Helpers for the boundary-condition laws -/

theorem match_plane_intro {d nd : Nat} {p q : Point}
    (h : ∀ i, i < nd → i ≠ d → coord p i = coord q i) :
    match_plane d nd p q = true := by
  simp only [match_plane, List.all_eq_true, List.mem_range, Bool.or_eq_true,
    beq_iff_eq, decide_eq_true_eq]
  intro i hi
  by_cases hid : i = d
  · exact Or.inl hid
  · exact Or.inr (h i hi hid)

theorem getD_zero_headD {gs : List Nat} (h : gs ≠ []) :
    gs.getD 0 0 = gs.headD 0 := by
  cases gs with
  | nil => cases h rfl
  | cons g l => rfl

theorem bbox_min_lt_max (gs : List Nat) (dx : ℚ) (hdx : 0 < dx)
    (hgs : gs ≠ []) (h0 : 0 < gs.headD 0) :
    (bbox_min gs dx).getD 0 0 < (bbox_max gs dx).getD 0 0 := by
  have hlen : 0 < gs.length := List.length_pos.mpr hgs
  rw [bbox_min_getD gs dx hdx.le hlen, bbox_max_getD gs dx hdx.le hlen,
    getD_zero_headD hgs]
  have hpos : (0 : ℚ) < (gs.headD 0 : ℚ) * dx := by
    have : (0 : ℚ) < (gs.headD 0 : ℚ) := by exact_mod_cast h0
    exact mul_pos this hdx
  linarith

theorem bbox_diff_headD (gs : List Nat) (dx : ℚ) (hdx : 0 ≤ dx)
    (hgs : gs ≠ []) :
    (bbox_max gs dx).getD 0 0 - (bbox_min gs dx).getD 0 0 =
      (gs.headD 0 : ℚ) * dx := by
  have hlen : 0 < gs.length := List.length_pos.mpr hgs
  rw [bbox_min_getD gs dx hdx hlen, bbox_max_getD gs dx hdx hlen,
    getD_zero_headD hgs]
  ring

/-! ### Periodic offset law (claim C5) -/

/-- Claim C5: every displacement field satisfying the boundary conditions
that `ElasticFESimulation.solve` constructs (sfepy enforces them exactly on
the returned solution, by eliminating the constrained degrees of freedom)
obeys the periodic offset law: at every mesh node on the max-coordinate
face of the loading axis, the loading-axis displacement component equals
its value at the matching node of the min-coordinate face plus
`macro_strain` times the domain length along the loading axis. -/
theorem solved_face_offset_law (gs : List Nat) (dx ms : ℚ)
    (u : Point → List ℚ) (hdx : 0 ≤ dx) (hgs : gs ≠ [])
    (hsat : satisfies_bcs gs dx ms u) (p : Point)
    (hp : is_node gs dx p = true)
    (hx : coord p 0 = (bbox_max gs dx).getD 0 0) :
    ucomp u p 0 =
      ucomp u (p.set 0 ((bbox_min gs dx).getD 0 0)) 0 +
        ms * ((gs.headD 0 : ℚ) * dx) := by
  have hlen : 0 < gs.length := List.length_pos.mpr hgs
  have hplen : p.length = gs.length := (is_node_iff.mp hp).1
  have hq : is_node gs dx (p.set 0 ((bbox_min gs dx).getD 0 0)) = true :=
    is_node_set hp hlen (min_node_mem hdx hlen)
  have hb := hsat _ (lcbc_mem_all gs dx ms)
  rw [get_linear_combination_bcs] at hb
  have hplus : get_region_func none 0 ((bbox_max gs dx).getD 0 0) p = true :=
    (get_region_func_none_iff (by norm_num)).mpr hx
  have hminus : get_region_func none 0 ((bbox_min gs dx).getD 0 0)
      (p.set 0 ((bbox_min gs dx).getD 0 0)) = true :=
    (get_region_func_none_iff (by norm_num)).mpr
      (coord_set_self (hplen ▸ hlen))
  have hmatch : match_plane 0 gs.length p
      (p.set 0 ((bbox_min gs dx).getD 0 0)) = true := match_plane_set
  have := hb p (p.set 0 ((bbox_min gs dx).getD 0 0)) hp hq hplus hminus hmatch
    (0, 0) (List.mem_singleton.mpr rfl)
  rw [bbox_diff_headD gs dx hdx hgs] at this
  exact this

/-! ### Transverse periodicity (claim C6) -/

/-- Claim C6: every displacement field satisfying the constructed boundary
conditions is periodic across the faces of every non-loading axis: at each
node of the max-coordinate face of axis `a` (any axis other than the
loading axis 0), every displacement component equals its value at the
matching node on the min-coordinate face.  Components 1 (and 2 in 3D) come
from the `get_periodic_bc_yz` conditions; component 0 comes from
`get_periodic_bc_x` away from the max-x plane and from combining the
linear-combination condition with `get_periodic_bc_x` on the max-x
plane. -/
theorem transverse_periodicity_law (gs : List Nat) (dx ms : ℚ)
    (u : Point → List ℚ) (hdx : 0 < dx)
    (hnd : gs.length = 2 ∨ gs.length = 3) (h0 : 0 < gs.headD 0)
    (hsat : satisfies_bcs gs dx ms u) (a : Nat) (ha1 : 1 ≤ a)
    (ha : a < gs.length) (p : Point) (hp : is_node gs dx p = true)
    (hpa : coord p a = (bbox_max gs dx).getD a 0) (c : Nat)
    (hc : c < gs.length) :
    ucomp u p c = ucomp u (p.set a ((bbox_min gs dx).getD a 0)) c := by
  have hgs : gs ≠ [] := by
    intro hnil
    rw [hnil] at ha
    cases ha
  have hlen0 : 0 < gs.length := List.length_pos.mpr hgs
  have hplen : p.length = gs.length := (is_node_iff.mp hp).1
  have ha0 : a ≠ 0 := by omega
  have ha3 : a < 3 := by rcases hnd with h | h <;> omega
  set q : Point := p.set a ((bbox_min gs dx).getD a 0) with hqdef
  have hq : is_node gs dx q = true :=
    is_node_set hp ha (min_node_mem hdx.le ha)
  have hqa : coord q a = (bbox_min gs dx).getD a 0 :=
    coord_set_self (hplen ▸ ha)
  have hq0 : coord q 0 = coord p 0 := coord_set_ne ha0
  have hmatch : match_plane a gs.length p q = true := match_plane_set
  rcases Nat.eq_zero_or_pos c with hc0 | hc1
  · -- component 0: the x-periodic condition, possibly through the LCBC
    subst hc0
    have hbx := hsat _ (x_mem_all gs dx ms ha1 ha)
    rw [get_periodic_bc_x, get_bc] at hbx
    have hple : coord p 0 ≤ (bbox_max gs dx).getD 0 0 :=
      node_coord_le_max hdx.le hp hlen0
    rcases eq_or_lt_of_le hple with hx0 | hxlt
    · -- node on the max-x plane: go through the linear-combination BC
      have hlc := hsat _ (lcbc_mem_all gs dx ms)
      rw [get_linear_combination_bcs] at hlc
      set m0 : ℚ := (bbox_min gs dx).getD 0 0 with hm0def
      have hm0lt : m0 < (bbox_max gs dx).getD 0 0 :=
        bbox_min_lt_max gs dx hdx hgs h0
      have hp' : is_node gs dx (p.set 0 m0) = true :=
        is_node_set hp hlen0 (min_node_mem hdx.le hlen0)
      have hq' : is_node gs dx (q.set 0 m0) = true :=
        is_node_set hq hlen0 (min_node_mem hdx.le hlen0)
      have hp'0 : coord (p.set 0 m0) 0 = m0 := coord_set_self (hplen ▸ hlen0)
      have hq'0 : coord (q.set 0 m0) 0 = m0 := by
        have : q.length = gs.length := (is_node_iff.mp hq).1
        exact coord_set_self (this ▸ hlen0)
      -- LCBC at p and its min-x partner
      have h1 := hlc p (p.set 0 m0) hp hp'
        ((get_region_func_none_iff (by norm_num)).mpr hx0)
        ((get_region_func_none_iff (by norm_num)).mpr hp'0)
        match_plane_set (0, 0) (List.mem_singleton.mpr rfl)
      -- LCBC at q and its min-x partner
      have h2 := hlc q (q.set 0 m0) hq hq'
        ((get_region_func_none_iff (by norm_num)).mpr (hq0.trans hx0))
        ((get_region_func_none_iff (by norm_num)).mpr hq'0)
        match_plane_set (0, 0) (List.mem_singleton.mpr rfl)
      -- x-periodicity of the two min-x partners across axis a
      have hp'a : coord (p.set 0 m0) a = (bbox_max gs dx).getD a 0 := by
        rw [coord_set_ne (fun h => ha0 h.symm)]
        exact hpa
      have hq'a : coord (q.set 0 m0) a = (bbox_min gs dx).getD a 0 := by
        rw [coord_set_ne (fun h => ha0 h.symm)]
        exact hqa
      have hmatch' : match_plane a gs.length (p.set 0 m0) (q.set 0 m0) = true := by
        apply match_plane_intro
        intro i hi hia
        by_cases hi0 : i = 0
        · subst hi0
          rw [hp'0, hq'0]
        · rw [coord_set_ne (fun h => hi0 h.symm), coord_set_ne (fun h => hi0 h.symm),
            hqdef, coord_set_ne (fun h => hia h.symm)]
      have h3 := hbx (p.set 0 m0) (q.set 0 m0) hp' hq'
        ((get_region_func_some_iff ha3).mpr ⟨hp'a, by rw [hp'0]; exact hm0lt⟩)
        ((get_region_func_some_iff ha3).mpr ⟨hq'a, by rw [hq'0]; exact hm0lt⟩)
        hmatch' (0, 0) (List.mem_singleton.mpr rfl)
      -- combine: u.0 p = u.0 p' + s, u.0 q = u.0 q' + s, u.0 p' = u.0 q'
      rw [h1, h2, h3]
    · -- node strictly below the max-x plane: direct x-periodicity
      have h3 := hbx p q hp hq
        ((get_region_func_some_iff ha3).mpr ⟨hpa, hxlt⟩)
        ((get_region_func_some_iff ha3).mpr ⟨hqa, by rw [hq0]; exact hxlt⟩)
        hmatch (0, 0) (List.mem_singleton.mpr rfl)
      exact h3
  · -- components 1 and 2: the yz-periodic condition for axis a
    have hby := hsat _ (yz_mem_all gs dx ms ha)
    rw [get_periodic_bc_yz, get_bc] at hby
    have hcm : (c, c) ∈ ([(1, 1)] ++ if gs.length = 3 then [(2, 2)] else []) := by
      rcases hnd with h2 | h3
    
      · have : c = 1 := by omega
        subst this
        simp
      · have : c = 1 ∨ c = 2 := by omega
        rcases this with h | h <;> subst h <;> simp [h3]
    exact hby p q hp hq
      ((get_region_func_none_iff ha3).mpr hpa)
      ((get_region_func_none_iff ha3).mpr hqa)
      hmatch (c, c) hcm
/-! ### A concrete field satisfying the constructed boundary conditions -/

theorem mesh11 : get_fields_mesh [1, 1] 2 = [[-1, 1], [-1, 1]] := by
  norm_num [get_fields_mesh, axis_nodes, List.range_succ]

theorem bbox11min : bbox_min [1, 1] 2 = [-1, -1] := by
  rw [bbox_min, mesh11]
  norm_num [list_min, min_def]

theorem bbox11max : bbox_max [1, 1] 2 = [1, 1] := by
  rw [bbox_max, mesh11]
  norm_num [list_max, max_def]


theorem node11 {a b : ℚ} (ha : a = -1 ∨ a = 1) (hb : b = -1 ∨ b = 1) :
    is_node [1, 1] 2 [a, b] = true := by
  refine is_node_iff.mpr ⟨rfl, ?_⟩
  intro i hi
  have hi2 : i < 2 := by simpa using hi
  interval_cases i <;> simp [mesh11, coord] <;> tauto

theorem u_aff_comp0 (p : Point) : ucomp u_aff p 0 = coord p 0 + 1 := rfl

theorem u_aff_comp1 (p : Point) : ucomp u_aff p 1 = 0 := rfl

theorem subdomain_func_x {xs ys zs : List ℚ} {mx : Option ℚ} {p : Point}
    (h : subdomain_func xs ys zs mx p = true) : flag_it xs p 0 = true := by
  simp only [subdomain_func, Bool.and_eq_true] at h
  exact h.1.1.1

theorem all_bcs11 : all_bcs [1, 1] 2 1 =
    [ BC.periodic (get_region_func none 0 1) (get_region_func none 0 (-1))
        [(1, 1)] 0,
      BC.periodic (get_region_func none 1 1) (get_region_func none 1 (-1))
        [(1, 1)] 1,
      BC.periodic (get_region_func (some 1) 1 1) (get_region_func (some 1) 1 (-1))
        [(0, 0)] 1,
      BC.essential (get_shift_or_fixed_region [-1, -1] [1, 1] [1]) [(0, 2)],
      BC.essential (get_shift_or_fixed_region [-1, -1] [1, 1] [-1])
        [(0, 0), (1, 0)],
      BC.shifted_periodic (get_region_func none 0 1) (get_region_func none 0 (-1))
        [(0, 0)] 0 2 ] := by
  rw [all_bcs, bbox11min, bbox11max]
  norm_num [get_periodic_bcs, get_displacement_bcs, get_linear_combination_bcs,
    get_periodic_bc_yz, get_periodic_bc_x, get_bc,
    (show List.range' 0 2 = [0, 1] from rfl),
    (show List.range' 1 1 = [1] from rfl)]

theorem sat_aff : satisfies_bcs [1, 1] 2 1 u_aff := by
  intro bc hbc
  rw [all_bcs11] at hbc
  simp only [List.mem_cons, List.not_mem_nil, or_false] at hbc
  rcases hbc with h | h | h | h | h | h <;> subst h
  · -- yz periodicity across the x planes: ties component 1
    intro p q _ _ _ _ _ c hcm
    rw [List.mem_singleton] at hcm
    subst hcm
    show ucomp u_aff p 1 = ucomp u_aff q 1
    rw [u_aff_comp1, u_aff_comp1]
  · -- yz periodicity across the y planes: ties component 1
    intro p q _ _ _ _ _ c hcm
    rw [List.mem_singleton] at hcm
    subst hcm
    show ucomp u_aff p 1 = ucomp u_aff q 1
    rw [u_aff_comp1, u_aff_comp1]
  · -- x periodicity across the y planes: ties component 0
    intro p q _ _ _ _ hm c hcm
    rw [List.mem_singleton] at hcm
    subst hcm
    show ucomp u_aff p 0 = ucomp u_aff q 0
    rw [u_aff_comp0, u_aff_comp0,
      match_plane_eq hm (by norm_num) (by norm_num)]
  · -- shift essential condition at the right corner points
    intro p _ hr cv hcv
    rw [List.mem_singleton] at hcv
    subst hcv
    rw [get_shift_or_fixed_region] at hr
    have hx := flag_it_singleton.mp (subdomain_func_x hr)
    show ucomp u_aff p 0 = 2
    rw [u_aff_comp0, hx]
    norm_num
  · -- fix essential condition at the left corner points
    intro p _ hr cv hcv
    rw [get_shift_or_fixed_region] at hr
    have hx := flag_it_singleton.mp (subdomain_func_x hr)
    rcases List.mem_cons.mp hcv with h | h
    · subst h
      show ucomp u_aff p 0 = 0
      rw [u_aff_comp0, hx]
      norm_num
    · rw [List.mem_singleton] at h
      subst h
      show ucomp u_aff p 1 = 0
      rw [u_aff_comp1]
  · -- the shifted-periodic (linear combination) condition
    intro p q _ _ h1 h2 _ c hcm
    rw [List.mem_singleton] at hcm
    subst hcm
    show ucomp u_aff p 0 = ucomp u_aff q 0 + 2
    rw [u_aff_comp0, u_aff_comp0,
      (get_region_func_none_iff (by norm_num)).mp h1,
      (get_region_func_none_iff (by norm_num)).mp h2]
    norm_num

/-- Witness for C5 on the 1 by 1 grid with spacing 2 and unit macroscopic
strain, at the max-x node `(1, -1)`. -/
theorem solved_face_offset_law_witness :
    ucomp u_aff [1, -1] 0 =
      ucomp u_aff (([1, -1] : Point).set 0 ((bbox_min [1, 1] 2).getD 0 0)) 0 +
        1 * ((([1, 1] : List Nat).headD 0 : ℚ) * 2) :=
  solved_face_offset_law [1, 1] 2 1 u_aff (by norm_num) (by decide) sat_aff
    [1, -1] (node11 (Or.inr rfl) (Or.inl rfl)) (by rw [bbox11max]; rfl)

/-- Witness for C6 on the 1 by 1 grid with spacing 2, transverse axis 1,
node `(-1, 1)` on the max-y face, component 0. -/
theorem transverse_periodicity_law_witness :
    ucomp u_aff [-1, 1] 0 =
      ucomp u_aff (([-1, 1] : Point).set 1 ((bbox_min [1, 1] 2).getD 1 0)) 0 :=
  transverse_periodicity_law [1, 1] 2 1 u_aff (by norm_num) (Or.inl rfl)
    (by decide) sat_aff 1 (le_refl 1) (by decide) [-1, 1]
    (node11 (Or.inl rfl) (Or.inr rfl)) (by rw [bbox11max]; rfl) 0 (by decide)
